import Mathlib

/-!
Verification of the `EventDispatcher` class of the Kathara repository
(`src/Kathara/event/EventDispatcher.py`), a process-wide registry mapping
event names to ordered lists of subscriber entries.

Modelling conventions (a shallow embedding of the Python code):

* A Python object, as seen through duck typing, is a finite map from
  attribute names to bound-callable identifiers (`PyObj`); `getattr` and
  `hasattr` are the corresponding lookups.  Bound callables are identified
  by natural numbers; whether the call of a callable raises is given by a
  behaviour function `beh : Nat → Bool` (`true` = the call raises).
* The Python `dict` held in `self.events` is an association list with the
  usual dict operations: `alistGet` (lookup / `in`), `alistSet`
  (`d[k] = v`, which also models in-place mutation of the stored list),
  `alistDel` (`del d[k]`).  Real dicts never hold duplicate keys; the
  predicate `WF` states this and is preserved by all operations.
* The error kinds are those named by the design document: the
  `AttributeError` raised by `getattr` is the `MissingCapabilityError`
  kind, the `KeyError` raised by a failed dict lookup is the
  `NotFoundError` kind, `InstantiationError` is the kind raised by the
  singleton guard, and an exception propagating out of a user callback is
  abstracted as the `CallbackError` kind.
* Methods that mutate `self.events` return the state they leave behind
  together with the raised error, if any: Python keeps mutations performed
  before a raise, so an erroring call still returns a (possibly changed)
  state.
-/

namespace EventDispatcherModel

/-- The error kinds of the dispatcher design: `MissingCapabilityError`
abstracts the `AttributeError` raised by `getattr`, `NotFoundError` the
`KeyError` of a failed dict lookup, `InstantiationError` the singleton
guard error, and `CallbackError` an exception propagating out of a user
callback. -/
inductive PyError where
  | MissingCapabilityError
  | NotFoundError
  | InstantiationError
  | CallbackError
deriving DecidableEq, Repr

/-- A Python object as the dispatcher sees it: a finite map from attribute
names to identifiers of bound callables. -/
structure PyObj where
  attrs : List (String × Nat)
deriving DecidableEq, Repr

/-- Association-list lookup: the first binding of `k` (Python dict lookup,
and membership via `Option.isSome`). -/
def alistGet {β : Type} (d : List (String × β)) (k : String) : Option β :=
  match d with
  | [] => none
  | (k1, v1) :: rest => if k1 = k then some v1 else alistGet rest k

/-- Association-list update `d[k] = v`: replaces the binding of `k` when
present, otherwise appends it (Python dicts keep insertion order). -/
def alistSet {β : Type} (d : List (String × β)) (k : String) (v : β) :
    List (String × β) :=
  match d with
  | [] => [(k, v)]
  | (k1, v1) :: rest =>
      if k1 = k then (k, v) :: rest else (k1, v1) :: alistSet rest k v

/-- Association-list deletion `del d[k]`: removes the binding of `k`. -/
def alistDel {β : Type} (d : List (String × β)) (k : String) :
    List (String × β) :=
  match d with
  | [] => []
  | (k1, v1) :: rest =>
      if k1 = k then rest else (k1, v1) :: alistDel rest k

/-- Python `hasattr(o, name)`. -/
def hasattr (o : PyObj) (name : String) : Bool :=
  (alistGet o.attrs name).isSome

/-- Python `getattr(o, name)`: the bound callable, or the
`MissingCapabilityError` kind (`AttributeError`). -/
def getattr (o : PyObj) (name : String) : Except PyError Nat :=
  match alistGet o.attrs name with
  | some c => Except.ok c
  | none => Except.error PyError.MissingCapabilityError

/-- A subscriber entry `(run_callback, unregister_callback)`: the notify
callable and the optional teardown callable (`None` when absent). -/
abbrev Entry := Nat × Option Nat

/-- The dispatcher state: `self.events`, a dict from event name to the
ordered list of subscriber entries. -/
structure Registry where
  events : List (String × List Entry)
deriving DecidableEq, Repr

/-- A registry is well formed when its dict has no duplicate keys; real
Python dicts always satisfy this, and every operation preserves it. -/
def WF (s : Registry) : Prop := (s.events.map Prod.fst).Nodup

/-- The attribute name resolved for the notify callback: the expression
`'run' if not method else method` of `register` — `None` and the empty
string are falsy, so both select the default `"run"`. -/
def notifyName (method : Option String) : String :=
  match method with
  | none => "run"
  | some m => if m = "" then "run" else m

/-- The teardown slot recorded by `register`: the expression
`getattr(obj, 'unregister') if hasattr(obj, 'unregister') else None`. -/
def tdOf (obj : PyObj) : Option Nat :=
  if hasattr obj "unregister" then (getattr obj "unregister").toOption
  else none

/-- `EventDispatcher.get_subscribers`: the list comprehension
`[run_callback for (run_callback, _) in self.events[event]]`; the dict
lookup raises the `NotFoundError` kind when `event` is absent. -/
def get_subscribers (s : Registry) (event : String) :
    Except PyError (List Nat) :=
  match alistGet s.events event with
  | none => Except.error PyError.NotFoundError
  | some entries => Except.ok (entries.map Prod.fst)

/-- `EventDispatcher.register`.  Mirrors the statement order of the code:
first `if event not in self.events: self.events[event] = []`, then the
tuple `(getattr(obj, 'run' if not method else method), getattr(obj,
'unregister') if hasattr(obj, 'unregister') else None)` is built — the
first `getattr` may raise, in which case the earlier dict insertion is
kept — and finally the tuple is appended to `self.events[event]`. -/
def register (s : Registry) (event : String) (obj : PyObj)
    (method : Option String) : Registry × Option PyError :=
  let s1 : Registry :=
    if (alistGet s.events event).isSome then s
    else ⟨alistSet s.events event []⟩
  match getattr obj (notifyName method) with
  | Except.error e => (s1, some e)
  | Except.ok runCb =>
      let old : List Entry := (alistGet s1.events event).getD []
      (⟨alistSet s1.events event (old ++ [(runCb, tdOf obj)])⟩, none)

/-- Call a list of callables in order under behaviour `beh`: returns the
trace of callables actually invoked and the propagated error, if any.
The first raising callable is itself invoked (it runs, then raises) and
the loop stops there, as Python exception propagation does. -/
def callSeq (beh : Nat → Bool) : List Nat → List Nat × Option PyError
  | [] => ([], none)
  | c :: rest =>
      if beh c then ([c], some PyError.CallbackError)
      else
        let r := callSeq beh rest
        (c :: r.1, r.2)

/-- `EventDispatcher.dispatch`: a no-op on an unknown event, otherwise
invokes each `run_callback` in list order, forwarding `kwargs` (of an
arbitrary type `K`) verbatim to each.  Returns the state left behind, the
trace of invocations with the arguments each received, and the propagated
error, if any. -/
def dispatch {K : Type} (beh : Nat → Bool) (s : Registry) (event : String)
    (kwargs : K) : Registry × List (Nat × K) × Option PyError :=
  match alistGet s.events event with
  | none => (s, [], none)
  | some entries =>
      let r := callSeq beh (entries.map Prod.fst)
      (s, r.1.map fun c => (c, kwargs), r.2)

/-- `EventDispatcher.unregister`: a no-op on an unknown event, otherwise
invokes `unregister_callback()` for each entry whose teardown slot is
truthy (not `None`), in list order, and then — only if no teardown raised
— executes `del self.events[event]`. -/
def unregister (beh : Nat → Bool) (s : Registry) (event : String) :
    Registry × List Nat × Option PyError :=
  match alistGet s.events event with
  | none => (s, [], none)
  | some entries =>
      let r := callSeq beh (entries.filterMap Prod.snd)
      match r.2 with
      | some e => (s, r.1, some e)
      | none => (⟨alistDel s.events event⟩, r.1, none)

/-- The process-wide class state: `EventDispatcher.__instance` (an
instance identity paired with its registry state, or `None`) together
with a counter supplying fresh identities to constructed instances. -/
structure World where
  inst : Option (Nat × Registry)
  nextId : Nat
deriving DecidableEq, Repr

/-- `EventDispatcher.__init__`: raises the `InstantiationError` kind when
an instance already exists, otherwise creates the instance with an empty
`events` dict and stores it in `__instance`. -/
def construct (w : World) : World × Except PyError Nat :=
  match w.inst with
  | some _ => (w, Except.error PyError.InstantiationError)
  | none => (⟨some (w.nextId, ⟨[]⟩), w.nextId + 1⟩, Except.ok w.nextId)

/-- `EventDispatcher.get_instance`: constructs the singleton when
`__instance` is `None`, then returns `__instance` (its identity). -/
def get_instance (w : World) : World × Option Nat :=
  match w.inst with
  | some p => (w, some p.1)
  | none =>
      let w1 := (construct w).1
      (w1, w1.inst.map Prod.fst)

/-- One dispatcher call, for reachability statements: a `register`, a
`dispatch` (its keyword arguments are irrelevant to the state), or an
`unregister`. -/
inductive Op where
  | reg (event : String) (obj : PyObj) (method : Option String)
  | disp (event : String)
  | unreg (event : String)
deriving Repr

/-- Apply one call to a registry state; the Boolean records whether the
call completed without a `MissingCapabilityError` (`register` is the only
call whose failure can leave a changed state behind). -/
def applyOp (beh : Nat → Bool) (s : Registry) : Op → Registry × Bool
  | Op.reg e o m =>
      let r := register s e o m
      (r.1, r.2.isNone)
  | Op.disp e => ((dispatch beh s e ()).1, true)
  | Op.unreg e => ((unregister beh s e).1, true)

/-- Run a sequence of calls from a state; the Boolean accumulates whether
every `register` along the way succeeded. -/
def runOps (beh : Nat → Bool) (s : Registry) (ok : Bool) :
    List Op → Registry × Bool
  | [] => (s, ok)
  | op :: rest =>
      let r := applyOp beh s op
      runOps beh r.1 (ok && r.2) rest

/-- `register` iterated `n` times with the same arguments, for the
multiple-registration part of the design: each call appends an
independent entry. -/
def registerN (s : Registry) (event : String) (obj : PyObj)
    (method : Option String) : Nat → Registry
  | 0 => s
  | n + 1 => (register (registerN s event obj method n) event obj method).1

/-- The non-empty-values invariant of the design document: every event
name present in the mapping maps to a non-empty list. -/
def InvNE (s : Registry) : Prop :=
  ∀ k l, alistGet s.events k = some l → l ≠ []

/-! ### Dictionary lemmas -/

theorem alistGet_alistSet_self {β : Type} (d : List (String × β)) (k : String)
    (v : β) : alistGet (alistSet d k v) k = some v := by
  induction d with
  | nil => simp [alistSet, alistGet]
  | cons p rest ih =>
      obtain ⟨k1, v1⟩ := p
      by_cases h : k1 = k <;> simp [alistSet, alistGet, h, ih]

theorem alistGet_alistSet_ne {β : Type} (d : List (String × β))
    (k k2 : String) (v : β) (h : k2 ≠ k) :
    alistGet (alistSet d k v) k2 = alistGet d k2 := by
  induction d with
  | nil => simp [alistSet, alistGet, Ne.symm h]
  | cons p rest ih =>
      obtain ⟨k1, v1⟩ := p
      by_cases h1 : k1 = k
      · subst h1
        simp [alistSet, alistGet, Ne.symm h]
      · by_cases h2 : k1 = k2 <;> simp [alistSet, alistGet, h, h1, h2, ih]

theorem alistGet_alistDel_ne {β : Type} (d : List (String × β))
    (k k2 : String) (h : k2 ≠ k) :
    alistGet (alistDel d k) k2 = alistGet d k2 := by
  induction d with
  | nil => simp [alistDel]
  | cons p rest ih =>
      obtain ⟨k1, v1⟩ := p
      by_cases h1 : k1 = k
      · subst h1
        simp [alistDel, alistGet, Ne.symm h]
      · by_cases h2 : k1 = k2 <;> simp [alistDel, alistGet, h, h1, h2, ih]

theorem alistGet_eq_none_of_not_mem {β : Type} (d : List (String × β))
    (k : String) (h : k ∉ d.map Prod.fst) : alistGet d k = none := by
  induction d with
  | nil => rfl
  | cons p rest ih =>
      obtain ⟨k1, v1⟩ := p
      simp only [List.map_cons, List.mem_cons, not_or] at h
      simp [alistGet, Ne.symm h.1, ih h.2]

theorem alistGet_alistDel_self {β : Type} (d : List (String × β))
    (k : String) (h : (d.map Prod.fst).Nodup) :
    alistGet (alistDel d k) k = none := by
  induction d with
  | nil => rfl
  | cons p rest ih =>
      obtain ⟨k1, v1⟩ := p
      simp only [List.map_cons, List.nodup_cons] at h
      by_cases h1 : k1 = k
      · subst h1
        have hd : alistDel ((k1, v1) :: rest) k1 = rest := by
          simp [alistDel]
        rw [hd]
        exact alistGet_eq_none_of_not_mem rest k1 h.1
      · simp [alistDel, alistGet, h1, ih h.2]

theorem mem_map_fst_alistSet {β : Type} (d : List (String × β))
    (k k2 : String) (v : β) (h : k2 ∈ (alistSet d k v).map Prod.fst) :
    k2 = k ∨ k2 ∈ d.map Prod.fst := by
  induction d with
  | nil =>
      simp only [alistSet, List.map_cons, List.map_nil, List.mem_singleton] at h
      exact Or.inl h
  | cons p rest ih =>
      obtain ⟨k1, v1⟩ := p
      by_cases h1 : k1 = k
      · simp only [alistSet, h1, if_true, List.map_cons, List.mem_cons] at h
        rcases h with h | h
        · exact Or.inl h
        · exact Or.inr (by simp [h])
      · simp only [alistSet, h1, if_false, List.map_cons, List.mem_cons] at h
        rcases h with h | h
        · exact Or.inr (by simp [h])
        · rcases ih h with h2 | h2
          · exact Or.inl h2
          · exact Or.inr (by simp [h2])

theorem nodup_alistSet {β : Type} (d : List (String × β)) (k : String)
    (v : β) (h : (d.map Prod.fst).Nodup) :
    ((alistSet d k v).map Prod.fst).Nodup := by
  induction d with
  | nil => simp [alistSet]
  | cons p rest ih =>
      obtain ⟨k1, v1⟩ := p
      simp only [List.map_cons, List.nodup_cons] at h
      by_cases h1 : k1 = k
      · subst h1
        simp only [alistSet, if_true, List.map_cons, List.nodup_cons]
        exact ⟨h.1, h.2⟩
      · simp only [alistSet, h1, if_false, List.map_cons, List.nodup_cons]
        refine ⟨fun hmem => ?_, ih h.2⟩
        rcases mem_map_fst_alistSet rest k k1 v hmem with h2 | h2
        · exact h1 h2
        · exact h.1 h2

theorem alistDel_sublist {β : Type} (d : List (String × β)) (k : String) :
    (alistDel d k).Sublist d := by
  induction d with
  | nil => simp [alistDel]
  | cons p rest ih =>
      obtain ⟨k1, v1⟩ := p
      by_cases h1 : k1 = k
      · simp [alistDel, h1]
      · simp only [alistDel, h1, if_false]
        exact ih.cons₂ (k1, v1)

theorem nodup_alistDel {β : Type} (d : List (String × β)) (k : String)
    (h : (d.map Prod.fst).Nodup) : ((alistDel d k).map Prod.fst).Nodup :=
  h.sublist ((alistDel_sublist d k).map Prod.fst)

/-! ### Callback-sequence lemmas -/

theorem callSeq_all_ok (beh : Nat → Bool) (l : List Nat)
    (h : ∀ c ∈ l, beh c = false) : callSeq beh l = (l, none) := by
  induction l with
  | nil => rfl
  | cons c rest ih =>
      have hc : beh c = false := h c (List.mem_cons_self c rest)
      have hrest := ih fun x hx => h x (List.mem_cons_of_mem c hx)
      simp [callSeq, hc, hrest]

theorem callSeq_raise (beh : Nat → Bool) (pre post : List Nat) (r : Nat)
    (hpre : ∀ c ∈ pre, beh c = false) (hr : beh r = true) :
    callSeq beh (pre ++ r :: post) = (pre ++ [r], some PyError.CallbackError) := by
  induction pre with
  | nil => simp [callSeq, hr]
  | cons c rest ih =>
      have hc : beh c = false := hpre c (List.mem_cons_self c rest)
      have hrest := ih fun x hx => hpre x (List.mem_cons_of_mem c hx)
      simp [callSeq, hc, hrest]

theorem callSeq_fst_subset (beh : Nat → Bool) (l : List Nat) :
    ∀ x ∈ (callSeq beh l).1, x ∈ l := by
  induction l with
  | nil => simp [callSeq]
  | cons c rest ih =>
      intro x hx
      by_cases hc : beh c
      · have hxc : x = c := by
          simpa [callSeq, hc] using hx
        simp [hxc]
      · have hxc : x = c ∨ x ∈ (callSeq beh rest).1 := by
          simpa [callSeq, hc] using hx
        rcases hxc with h1 | h1
        · simp [h1]
        · exact List.mem_cons_of_mem c (ih x h1)

/-! ### Characterizations of the dispatcher methods -/

theorem register_ok_spec (s : Registry) (event : String) (obj : PyObj)
    (method : Option String) (c : Nat)
    (hc : alistGet obj.attrs (notifyName method) = some c) :
    (register s event obj method).2 = none ∧
    alistGet (register s event obj method).1.events event
      = some (((alistGet s.events event).getD []) ++ [(c, tdOf obj)]) ∧
    ∀ k, k ≠ event →
      alistGet (register s event obj method).1.events k
        = alistGet s.events k := by
  unfold register
  simp only [getattr, hc]
  by_cases hp : (alistGet s.events event).isSome
  · obtain ⟨l, hl⟩ := Option.isSome_iff_exists.mp hp
    simp only [hp, if_true, hl]
    refine ⟨trivial, ?_, ?_⟩
    · simp [alistGet_alistSet_self, hl]
    · intro k hk
      simp [alistGet_alistSet_ne _ _ _ _ hk]
  · have hn : alistGet s.events event = none :=
      Option.not_isSome_iff_eq_none.mp hp
    simp only [hp, if_false, hn]
    refine ⟨trivial, ?_, ?_⟩
    · simp [alistGet_alistSet_self]
    · intro k hk
      simp [alistGet_alistSet_ne _ _ _ _ hk]

theorem register_err_spec (s : Registry) (event : String) (obj : PyObj)
    (method : Option String)
    (hc : alistGet obj.attrs (notifyName method) = none) :
    (register s event obj method).2 = some PyError.MissingCapabilityError ∧
    alistGet (register s event obj method).1.events event
      = some ((alistGet s.events event).getD []) ∧
    ∀ k, k ≠ event →
      alistGet (register s event obj method).1.events k
        = alistGet s.events k := by
  unfold register
  simp only [getattr, hc]
  by_cases hp : (alistGet s.events event).isSome
  · obtain ⟨l, hl⟩ := Option.isSome_iff_exists.mp hp
    simp only [hp, if_true, hl]
    exact ⟨trivial, by simp [hl], fun k hk => rfl⟩
  · have hn : alistGet s.events event = none :=
      Option.not_isSome_iff_eq_none.mp hp
    simp only [hp, if_false, hn]
    refine ⟨trivial, ?_, ?_⟩
    · simp [alistGet_alistSet_self]
    · intro k hk
      simp [alistGet_alistSet_ne _ _ _ _ hk]

theorem register_WF (s : Registry) (event : String) (obj : PyObj)
    (method : Option String) (h : WF s) : WF (register s event obj method).1 := by
  unfold register
  cases hg : getattr obj (notifyName method) with
  | error e =>
      by_cases hp : (alistGet s.events event).isSome <;>
        simp only [hp, if_true, if_false]
      · exact h
      · exact nodup_alistSet _ _ _ h
  | ok c =>
      by_cases hp : (alistGet s.events event).isSome <;>
        simp only [hp, if_true, if_false]
      · exact nodup_alistSet _ _ _ h
      · exact nodup_alistSet _ _ _ (nodup_alistSet _ _ _ h)

theorem dispatch_fst {K : Type} (beh : Nat → Bool) (s : Registry)
    (event : String) (kwargs : K) : (dispatch beh s event kwargs).1 = s := by
  unfold dispatch
  cases alistGet s.events event <;> rfl

theorem unregister_cases (beh : Nat → Bool) (s : Registry) (event : String) :
    (unregister beh s event).1 = s ∨
    (unregister beh s event).1 = ⟨alistDel s.events event⟩ := by
  unfold unregister
  cases alistGet s.events event with
  | none => exact Or.inl rfl
  | some entries =>
      cases hc2 : (callSeq beh (entries.filterMap Prod.snd)).2 with
      | none => exact Or.inr (by simp [hc2])
      | some e => exact Or.inl (by simp [hc2])

theorem unregister_WF (beh : Nat → Bool) (s : Registry) (event : String)
    (h : WF s) : WF (unregister beh s event).1 := by
  rcases unregister_cases beh s event with hu | hu <;> rw [hu]
  · exact h
  · exact nodup_alistDel _ _ h

/-! ### Invariant preservation over call sequences -/

theorem applyOp_preserves (beh : Nat → Bool) (s : Registry) (op : Op)
    (hWF : WF s) (hInv : InvNE s) (hok : (applyOp beh s op).2 = true) :
    WF (applyOp beh s op).1 ∧ InvNE (applyOp beh s op).1 := by
  cases op with
  | reg e o m =>
      refine ⟨register_WF s e o m hWF, ?_⟩
      cases hg : alistGet o.attrs (notifyName m) with
      | none =>
          have herr := (register_err_spec s e o m hg).1
          simp [applyOp, herr] at hok
      | some c =>
          have hr := register_ok_spec s e o m c hg
          intro k l hk
          by_cases hke : k = e
          · subst hke
            rw [show (applyOp beh s (Op.reg k o m)).1
                  = (register s k o m).1 from rfl, hr.2.1] at hk
            have hl : ((alistGet s.events k).getD []) ++ [(c, tdOf o)] = l :=
              Option.some_injective _ hk
            intro hnil
            rw [hnil] at hl
            simp at hl
          · rw [show (applyOp beh s (Op.reg e o m)).1
                  = (register s e o m).1 from rfl, hr.2.2 k hke] at hk
            exact hInv k l hk
  | disp e =>
      constructor
      · have hd : (applyOp beh s (Op.disp e)).1 = s := dispatch_fst beh s e ()
        rw [hd]
        exact hWF
      · have hd : (applyOp beh s (Op.disp e)).1 = s := dispatch_fst beh s e ()
        rw [hd]
        exact hInv
  | unreg e =>
      refine ⟨unregister_WF beh s e hWF, ?_⟩
      rcases unregister_cases beh s e with hu | hu
      · have hd : (applyOp beh s (Op.unreg e)).1 = s := hu
        rw [hd]
        exact hInv
      · have hd : (applyOp beh s (Op.unreg e)).1 = ⟨alistDel s.events e⟩ := hu
        rw [hd]
        intro k l hk
        by_cases hke : k = e
        · subst hke
          rw [alistGet_alistDel_self s.events k hWF] at hk
          cases hk
        · rw [alistGet_alistDel_ne s.events e k hke] at hk
          exact hInv k l hk

theorem runOps_flag (beh : Nat → Bool) (ops : List Op) (s : Registry)
    (ok : Bool) (h : (runOps beh s ok ops).2 = true) : ok = true := by
  induction ops generalizing s ok with
  | nil => simpa [runOps] using h
  | cons op rest ih =>
      simp only [runOps] at h
      have h2 := ih _ _ h
      simp only [Bool.and_eq_true] at h2
      exact h2.1

theorem runOps_inv (beh : Nat → Bool) (ops : List Op) (s : Registry)
    (ok : Bool) (hWF : WF s) (hInv : InvNE s)
    (h : (runOps beh s ok ops).2 = true) :
    WF (runOps beh s ok ops).1 ∧ InvNE (runOps beh s ok ops).1 := by
  induction ops generalizing s ok with
  | nil => exact ⟨hWF, hInv⟩
  | cons op rest ih =>
      simp only [runOps] at h ⊢
      have hflag := runOps_flag beh rest _ _ h
      simp only [Bool.and_eq_true] at hflag
      have hp := applyOp_preserves beh s op hWF hInv hflag.2
      exact ih _ _ hp.1 hp.2 h

/-! ### Claim theorems -/

/-- Claim C1, counterexample to the claim as stated: with an empty registry
and a subscriber exposing no capability at all, `register("e", obj)` does
fail with the `MissingCapabilityError` kind, but the registry state is NOT
unchanged — the code runs `self.events[event] = []` before resolving the
capability, so the key `"e"` is left behind, mapped to an empty list. -/
theorem register_missing_capability_counterexample :
    (register ⟨[]⟩ "e" ⟨[]⟩ none).2 = some PyError.MissingCapabilityError ∧
    (register ⟨[]⟩ "e" ⟨[]⟩ none).1 ≠ (⟨[]⟩ : Registry) ∧
    (register ⟨[]⟩ "e" ⟨[]⟩ none).1.events = [("e", [])] := by
  decide

/-- Claim C1, amended: when the resolved notify capability does not exist
on the subscriber, `register` fails with the `MissingCapabilityError` kind
and no subscriber entry is added — the entry list of the event is exactly
what it was (reading `[]` for an absent event, whose key the failed call
may newly create with an empty list) and every other event is untouched. -/
theorem register_missing_capability (s : Registry) (event : String)
    (obj : PyObj) (method : Option String)
    (h : alistGet obj.attrs (notifyName method) = none) :
    (register s event obj method).2 = some PyError.MissingCapabilityError ∧
    alistGet (register s event obj method).1.events event
      = some ((alistGet s.events event).getD []) ∧
    ∀ k, k ≠ event →
      alistGet (register s event obj method).1.events k
        = alistGet s.events k :=
  register_err_spec s event obj method h

theorem register_missing_capability_witness :
    (register ⟨[]⟩ "e" ⟨[]⟩ none).2 = some PyError.MissingCapabilityError ∧
    alistGet (register ⟨[]⟩ "e" ⟨[]⟩ none).1.events "e" = some [] ∧
    alistGet (register ⟨[]⟩ "e" ⟨[]⟩ none).1.events "f" = none := by
  have h := register_missing_capability ⟨[]⟩ "e" ⟨[]⟩ none rfl
  exact ⟨h.1, h.2.1, (h.2.2 "f" (by decide)).trans rfl⟩

/-- Claim C2: for an event name absent from the registry (the claim calls
this an event "with no registrations" / "unknown event name"),
`get_subscribers` fails with the `NotFoundError` kind, whereas `dispatch`
and `unregister` on the same name are silent no-ops: state unchanged, no
callback invoked, no error raised. -/
theorem unknown_event_asymmetry {K : Type} (beh : Nat → Bool) (s : Registry)
    (event : String) (kwargs : K) (h : alistGet s.events event = none) :
    get_subscribers s event = Except.error PyError.NotFoundError ∧
    dispatch beh s event kwargs = (s, [], none) ∧
    unregister beh s event = (s, [], none) := by
  refine ⟨?_, ?_, ?_⟩ <;> simp [get_subscribers, dispatch, unregister, h]

theorem unknown_event_asymmetry_witness :
    get_subscribers ⟨[]⟩ "e" = Except.error PyError.NotFoundError ∧
    dispatch (fun _ => false) ⟨[]⟩ "e" (0 : Nat) = (⟨[]⟩, [], none) ∧
    unregister (fun _ => false) ⟨[]⟩ "e" = (⟨[]⟩, [], none) :=
  unknown_event_asymmetry (fun _ => false) ⟨[]⟩ "e" (0 : Nat) rfl

/-- Claim C4: provided every notify callback of the event returns normally,
`dispatch` invokes exactly the notify callbacks of the entries registered
for the event, once each, in registration order, each receiving `kwargs`
verbatim; for an event with no entry list this trace is empty; no error is
raised; and the registry state is returned unchanged. -/
theorem dispatch_delivery {K : Type} (beh : Nat → Bool) (s : Registry)
    (event : String) (kwargs : K)
    (h : ∀ c ∈ ((alistGet s.events event).getD []).map Prod.fst,
      beh c = false) :
    (dispatch beh s event kwargs).1 = s ∧
    (dispatch beh s event kwargs).2.1
      = ((alistGet s.events event).getD []).map (fun en => (en.1, kwargs)) ∧
    (dispatch beh s event kwargs).2.2 = none := by
  unfold dispatch
  cases hg : alistGet s.events event with
  | none => simp
  | some entries =>
      rw [hg] at h
      simp only [Option.getD_some] at h
      have hcs := callSeq_all_ok beh (entries.map Prod.fst) h
      simp [hcs, Function.comp]

theorem dispatch_delivery_witness :
    (dispatch (fun _ => false) ⟨[("e", [(1, none), (2, some 5)])]⟩ "e"
        (42 : Nat)).1 = ⟨[("e", [(1, none), (2, some 5)])]⟩ ∧
    (dispatch (fun _ => false) ⟨[("e", [(1, none), (2, some 5)])]⟩ "e"
        (42 : Nat)).2.1 = [(1, 42), (2, 42)] ∧
    (dispatch (fun _ => false) ⟨[("e", [(1, none), (2, some 5)])]⟩ "e"
        (42 : Nat)).2.2 = none := by
  have h := dispatch_delivery (fun _ => false)
    ⟨[("e", [(1, none), (2, some 5)])]⟩ "e" (42 : Nat) (fun c _ => rfl)
  exact ⟨h.1, h.2.1, h.2.2⟩

/-- Claim C5: provided every teardown callback of the event returns
normally, `unregister` of a present event invokes exactly the teardown
callbacks of its entries — in registration order, skipping without error
every entry whose teardown slot is `None`, each invoked with no arguments
(the trace records bare callable identities) — raises no error, and
afterwards the key of the event is absent, so `get_subscribers` on it
fails with the `NotFoundError` kind. -/
theorem unregister_teardown_spec (beh : Nat → Bool) (s : Registry)
    (event : String) (entries : List Entry) (hWF : WF s)
    (h : alistGet s.events event = some entries)
    (hbeh : ∀ t ∈ entries.filterMap Prod.snd, beh t = false) :
    (unregister beh s event).2.1 = entries.filterMap Prod.snd ∧
    (unregister beh s event).2.2 = none ∧
    alistGet (unregister beh s event).1.events event = none ∧
    get_subscribers (unregister beh s event).1 event
      = Except.error PyError.NotFoundError := by
  have hcs := callSeq_all_ok beh (entries.filterMap Prod.snd) hbeh
  have hdel : alistGet (alistDel s.events event) event = none :=
    alistGet_alistDel_self s.events event hWF
  unfold unregister
  rw [h]
  simp [hcs, get_subscribers, hdel]

theorem unregister_teardown_spec_witness :
    (unregister (fun _ => false)
        ⟨[("E", [(1, some 10), (2, none), (3, some 30)])]⟩ "E").2.1
      = [10, 30] ∧
    (unregister (fun _ => false)
        ⟨[("E", [(1, some 10), (2, none), (3, some 30)])]⟩ "E").2.2 = none ∧
    alistGet (unregister (fun _ => false)
        ⟨[("E", [(1, some 10), (2, none), (3, some 30)])]⟩ "E").1.events "E"
      = none ∧
    get_subscribers (unregister (fun _ => false)
        ⟨[("E", [(1, some 10), (2, none), (3, some 30)])]⟩ "E").1 "E"
      = Except.error PyError.NotFoundError := by
  have h := unregister_teardown_spec (fun _ => false)
    ⟨[("E", [(1, some 10), (2, none), (3, some 30)])]⟩ "E"
    [(1, some 10), (2, none), (3, some 30)] (by simp [WF]) rfl
    (fun t _ => rfl)
  exact ⟨h.1, h.2.1, h.2.2.1, h.2.2.2⟩

/-- Claim C9: if a teardown callback raises during `unregister` of a
present event — here, the teardowns are `pre ++ r :: post` in registration
order, those in `pre` return normally and `r` raises — then the deletion
of the key never executes: the state is returned unchanged, the event is
still present with all its entries intact, the error propagates, and the
invocation trace shows that the teardowns before the raiser (and the
raiser itself) did run. -/
theorem unregister_raise_keeps_event (beh : Nat → Bool) (s : Registry)
    (event : String) (entries : List Entry) (pre post : List Nat) (r : Nat)
    (h : alistGet s.events event = some entries)
    (hsplit : entries.filterMap Prod.snd = pre ++ r :: post)
    (hpre : ∀ t ∈ pre, beh t = false) (hr : beh r = true) :
    (unregister beh s event).1 = s ∧
    alistGet (unregister beh s event).1.events event = some entries ∧
    (unregister beh s event).2.1 = pre ++ [r] ∧
    (unregister beh s event).2.2 = some PyError.CallbackError := by
  have hcs := callSeq_raise beh pre post r hpre hr
  unfold unregister
  rw [h]
  simp [hsplit, hcs, h]

theorem unregister_raise_keeps_event_witness :
    (unregister (fun n => n == 20)
        ⟨[("E", [(1, some 10), (2, some 20)])]⟩ "E").1
      = ⟨[("E", [(1, some 10), (2, some 20)])]⟩ ∧
    alistGet (unregister (fun n => n == 20)
        ⟨[("E", [(1, some 10), (2, some 20)])]⟩ "E").1.events "E"
      = some [(1, some 10), (2, some 20)] ∧
    (unregister (fun n => n == 20)
        ⟨[("E", [(1, some 10), (2, some 20)])]⟩ "E").2.1 = [10, 20] ∧
    (unregister (fun n => n == 20)
        ⟨[("E", [(1, some 10), (2, some 20)])]⟩ "E").2.2
      = some PyError.CallbackError := by
  have h := unregister_raise_keeps_event (fun n => n == 20)
    ⟨[("E", [(1, some 10), (2, some 20)])]⟩ "E"
    [(1, some 10), (2, some 20)] [10] [] 20 rfl rfl (by decide) rfl
  exact ⟨h.1, h.2.1, h.2.2.1, h.2.2.2⟩

/-- Claim C10: calling `register` with the empty string as method name is
literally the same operation as omitting the method: the expression
`'run' if not method else method` treats every falsy value, including the
empty string, as selecting the default `"run"` capability. -/
theorem register_empty_method_default (s : Registry) (event : String)
    (obj : PyObj) :
    register s event obj (some "") = register s event obj none := rfl

/-- Claim C3, counterexample to the claim as stated: the claim quantifies
over states reachable including failed-register calls, but a `register`
whose capability resolution fails on a fresh event name leaves that key
behind mapped to an empty list, so the reached state violates the
non-empty-values invariant. -/
theorem registry_invariant_counterexample :
    (runOps (fun _ => false) ⟨[]⟩ true [Op.reg "e" ⟨[]⟩ none]).1.events
      = [("e", [])] ∧
    alistGet (runOps (fun _ => false) ⟨[]⟩ true
        [Op.reg "e" ⟨[]⟩ none]).1.events "e" = some [] := by
  decide

/-- Claim C3, amended: in every state reachable from the empty registry by
a sequence of `register`, `dispatch` and `unregister` calls in which every
`register` succeeded, each event name present in the mapping maps to a
non-empty list (failed registers are excluded: they may leave an
empty-list key, see the counterexample); and `unregister`, whenever it
completes without error, leaves the key of its event entirely absent from
any duplicate-free registry — no empty-list residue. -/
theorem registry_invariant :
    (∀ (beh : Nat → Bool) (ops : List Op),
      (runOps beh ⟨[]⟩ true ops).2 = true →
      ∀ k l, alistGet (runOps beh ⟨[]⟩ true ops).1.events k = some l →
        l ≠ []) ∧
    (∀ (beh : Nat → Bool) (s : Registry) (event : String), WF s →
      (unregister beh s event).2.2 = none →
      alistGet (unregister beh s event).1.events event = none) := by
  constructor
  · intro beh ops h
    refine (runOps_inv beh ops ⟨[]⟩ true ?_ ?_ h).2
    · simp [WF]
    · intro k l hk
      simp [alistGet] at hk
  · intro beh s event hWF herr
    cases hg : alistGet s.events event with
    | none =>
        have hs : (unregister beh s event).1 = s := by
          simp [unregister, hg]
        rw [hs]
        exact hg
    | some entries =>
        unfold unregister at herr ⊢
        rw [hg] at herr ⊢
        cases hc2 : (callSeq beh (entries.filterMap Prod.snd)).2 with
        | some e => simp [hc2] at herr
        | none =>
            simp only [hc2]
            exact alistGet_alistDel_self s.events event hWF

theorem registry_invariant_witness :
    ([((7 : Nat), (none : Option Nat))] : List Entry) ≠ [] ∧
    alistGet (unregister (fun _ => false)
        ⟨[("E", [(7, none)])]⟩ "E").1.events "E" = none := by
  have h := registry_invariant
  exact ⟨h.1 (fun _ => false) [Op.reg "E" ⟨[("run", 7)]⟩ none] (by decide)
      "E" [(7, none)] (by decide),
    h.2 (fun _ => false) ⟨[("E", [(7, none)])]⟩ "E" (by simp [WF]) rfl⟩

/-- Claim C6: a second call of `get_instance` returns exactly the world
and the instance identity the first call produced — the singleton is
created at most once and every call returns the identical instance — and
a direct construction attempt while an instance exists fails with the
`InstantiationError` kind, leaving the world (and hence the state of the
existing singleton) unchanged. -/
theorem singleton_spec (w : World) :
    get_instance ((get_instance w).1)
      = ((get_instance w).1, (get_instance w).2) ∧
    ((get_instance w).2).isSome = true ∧
    ∀ p, w.inst = some p →
      construct w = (w, Except.error PyError.InstantiationError) := by
  cases hw : w.inst with
  | some p =>
      refine ⟨?_, ?_, ?_⟩
      · simp [get_instance, hw]
      · simp [get_instance, hw]
      · intro q hq
        simp [construct, hw]
  | none =>
      refine ⟨?_, ?_, ?_⟩
      · simp [get_instance, construct, hw]
      · simp [get_instance, construct, hw]
      · intro q hq
        exact Option.noConfusion hq

theorem singleton_spec_witness :
    get_instance ((get_instance ⟨none, 0⟩).1)
      = ((get_instance ⟨none, 0⟩).1, (get_instance ⟨none, 0⟩).2) ∧
    construct ⟨some (0, ⟨[]⟩), 1⟩
      = (⟨some (0, ⟨[]⟩), 1⟩, Except.error PyError.InstantiationError) :=
  ⟨(singleton_spec ⟨none, 0⟩).1,
    (singleton_spec ⟨some (0, ⟨[]⟩), 1⟩).2.2 (0, ⟨[]⟩) rfl⟩

/-- Claim C7: `register` binds as notify the capability named by the given
(non-empty) method name, and the `"run"` capability when the method is
omitted; the recorded teardown slot is occupied exactly when the
subscriber exposes an `"unregister"` capability (its absence is no
error); the new entry is appended at the end of the list of the event;
and `n` registrations of the same subscriber to the same event produce
`n` independent entries — no deduplication. -/
theorem register_binding_spec (s : Registry) (event : String) (obj : PyObj)
    (m : String) (c crun : Nat) (hm : m ≠ "")
    (hc : alistGet obj.attrs m = some c)
    (hrun : alistGet obj.attrs "run" = some crun) :
    alistGet (register s event obj (some m)).1.events event
      = some (((alistGet s.events event).getD []) ++ [(c, tdOf obj)]) ∧
    (register s event obj (some m)).2 = none ∧
    alistGet (register s event obj none).1.events event
      = some (((alistGet s.events event).getD []) ++ [(crun, tdOf obj)]) ∧
    (register s event obj none).2 = none ∧
    (tdOf obj).isSome = hasattr obj "unregister" ∧
    ∀ n : Nat,
      (alistGet (registerN s event obj (some m) n).events event).getD []
        = ((alistGet s.events event).getD [])
            ++ List.replicate n (c, tdOf obj) := by
  have hnm : notifyName (some m) = m := by simp [notifyName, hm]
  have hget1 : alistGet obj.attrs (notifyName (some m)) = some c := by
    rw [hnm]
    exact hc
  have hget2 : alistGet obj.attrs (notifyName none) = some crun := hrun
  have h1 := register_ok_spec s event obj (some m) c hget1
  have h2 := register_ok_spec s event obj none crun hget2
  refine ⟨h1.2.1, h1.1, h2.2.1, h2.1, ?_, ?_⟩
  · unfold tdOf hasattr getattr
    cases ha : alistGet obj.attrs "unregister" <;>
      simp [ha, Except.toOption]
  · intro n
    induction n with
    | zero => simp [registerN]
    | succ k ih =>
        have hk := register_ok_spec (registerN s event obj (some m) k)
          event obj (some m) c hget1
        simp [registerN, hk.2.1, ih, List.replicate_succ']

theorem register_binding_spec_witness :
    alistGet (register ⟨[]⟩ "e" ⟨[("handle", 5), ("run", 7), ("unregister", 9)]⟩
        (some "handle")).1.events "e" = some [(5, some 9)] ∧
    (register ⟨[]⟩ "e" ⟨[("handle", 5), ("run", 7), ("unregister", 9)]⟩
        (some "handle")).2 = none ∧
    alistGet (register ⟨[]⟩ "e" ⟨[("handle", 5), ("run", 7), ("unregister", 9)]⟩
        none).1.events "e" = some [(7, some 9)] ∧
    (register ⟨[]⟩ "e" ⟨[("handle", 5), ("run", 7), ("unregister", 9)]⟩
        none).2 = none ∧
    (tdOf ⟨[("handle", 5), ("run", 7), ("unregister", 9)]⟩).isSome
      = hasattr ⟨[("handle", 5), ("run", 7), ("unregister", 9)]⟩ "unregister" ∧
    (alistGet (registerN ⟨[]⟩ "e" ⟨[("handle", 5), ("run", 7), ("unregister", 9)]⟩
        (some "handle") 2).events "e").getD [] = [(5, some 9), (5, some 9)] := by
  have h := register_binding_spec ⟨[]⟩ "e"
    ⟨[("handle", 5), ("run", 7), ("unregister", 9)]⟩ "handle" 5 7
    (by decide) rfl rfl
  exact ⟨h.1, h.2.1, h.2.2.1, h.2.2.2.1, h.2.2.2.2.1, h.2.2.2.2.2 2⟩

/-- Claim C8: for distinct event names `a` and `b`, `register`, `dispatch`
and `unregister` on `a` leave the entry list stored under `b` unchanged,
and every callback invocation they perform comes from the entry list of
`a` — the notify trace of `dispatch` draws only on the notify callables
of `a`, and the teardown trace of `unregister` only on its teardown
callables — so no callback is ever invoked on behalf of `b`. -/
theorem no_cross_event_leakage {K : Type} (beh : Nat → Bool) (s : Registry)
    (a b : String) (obj : PyObj) (method : Option String) (kwargs : K)
    (hne : a ≠ b) :
    alistGet (register s a obj method).1.events b = alistGet s.events b ∧
    alistGet (dispatch beh s a kwargs).1.events b = alistGet s.events b ∧
    (∀ p ∈ (dispatch beh s a kwargs).2.1,
      p.1 ∈ ((alistGet s.events a).getD []).map Prod.fst) ∧
    alistGet (unregister beh s a).1.events b = alistGet s.events b ∧
    ∀ t ∈ (unregister beh s a).2.1,
      t ∈ ((alistGet s.events a).getD []).filterMap Prod.snd := by
  refine ⟨?_, ?_, ?_, ?_, ?_⟩
  · cases hg : alistGet obj.attrs (notifyName method) with
    | some c => exact (register_ok_spec s a obj method c hg).2.2 b (Ne.symm hne)
    | none => exact (register_err_spec s a obj method hg).2.2 b (Ne.symm hne)
  · rw [dispatch_fst]
  · intro p hp
    unfold dispatch at hp
    cases hg : alistGet s.events a with
    | none =>
        rw [hg] at hp
        simp at hp
    | some entries =>
        rw [hg] at hp
        simp only [List.mem_map] at hp
        obtain ⟨c, hc1, hc2⟩ := hp
        rw [← hc2]
        simpa [hg] using callSeq_fst_subset beh (entries.map Prod.fst) c hc1
  · rcases unregister_cases beh s a with hu | hu
    · rw [hu]
    · rw [hu]
      exact alistGet_alistDel_ne s.events a b (Ne.symm hne)
  · intro t ht
    unfold unregister at ht
    cases hg : alistGet s.events a with
    | none =>
        rw [hg] at ht
        simp at ht
    | some entries =>
        rw [hg] at ht
        have htr : t ∈ (callSeq beh (entries.filterMap Prod.snd)).1 := by
          cases hc2 : (callSeq beh (entries.filterMap Prod.snd)).2 <;>
            simpa [hc2] using ht
        simpa [hg] using
          callSeq_fst_subset beh (entries.filterMap Prod.snd) t htr

theorem no_cross_event_leakage_witness :
    alistGet (register ⟨[("a", [(1, some 2)]), ("b", [(3, some 4)])]⟩ "a"
        ⟨[("run", 9)]⟩ none).1.events "b"
      = alistGet (⟨[("a", [(1, some 2)]), ("b", [(3, some 4)])]⟩ :
          Registry).events "b" ∧
    alistGet (dispatch (fun _ => false)
        ⟨[("a", [(1, some 2)]), ("b", [(3, some 4)])]⟩ "a"
        (0 : Nat)).1.events "b"
      = alistGet (⟨[("a", [(1, some 2)]), ("b", [(3, some 4)])]⟩ :
          Registry).events "b" ∧
    ((1 : Nat), (0 : Nat)).1 ∈
      ((alistGet (⟨[("a", [(1, some 2)]), ("b", [(3, some 4)])]⟩ :
          Registry).events "a").getD []).map Prod.fst ∧
    alistGet (unregister (fun _ => false)
        ⟨[("a", [(1, some 2)]), ("b", [(3, some 4)])]⟩ "a").1.events "b"
      = alistGet (⟨[("a", [(1, some 2)]), ("b", [(3, some 4)])]⟩ :
          Registry).events "b" ∧
    (2 : Nat) ∈
      ((alistGet (⟨[("a", [(1, some 2)]), ("b", [(3, some 4)])]⟩ :
          Registry).events "a").getD []).filterMap Prod.snd := by
  have h := no_cross_event_leakage (fun _ => false)
    ⟨[("a", [(1, some 2)]), ("b", [(3, some 4)])]⟩ "a" "b"
    ⟨[("run", 9)]⟩ none (0 : Nat) (by decide)
  exact ⟨h.1, h.2.1, h.2.2.1 (1, 0) (by decide), h.2.2.2.1,
    h.2.2.2.2 2 (by decide)⟩

end EventDispatcherModel
